import Mathlib

/-!
Shallow embedding of the request materialization engine in
`packages/hoppscotch-app/helpers/utils/EffectiveURL.ts`, together with
models (taken from the specification) of the external collaborators the
engine consumes: the template-string resolver, the raw key-value entry
parser, the base64 primitive and the multipart container builder.
-/

/-- A variable binding (key/value pair), used for environment variables,
global variables and local request variables alike. -/
structure EnvVar where
  key : String
  value : String
deriving DecidableEq, Repr

/-- An environment: an ordered sequence of variable bindings
(first match wins on lookup). -/
structure Environment where
  «variables» : List EnvVar
deriving DecidableEq, Repr

/-- A request header or query parameter: key, value and active flag. -/
structure HoppRESTHeader where
  active : Bool
  key : String
  value : String
deriving DecidableEq, Repr

/-- Params have the same shape as headers. -/
abbrev HoppRESTParam := HoppRESTHeader

/-- Where an api-key auth places its key/value pair. -/
inductive AuthAddTo where
  | toHeaders
  | toQueryParams
deriving DecidableEq, Repr

/-- The tagged authentication variants of the request data model. -/
inductive AuthType where
  | noAuth
  | basic (username password : String)
  | bearer (token : String)
  | oauth2 (token : String)
  | apiKey (key value : String) (addTo : AuthAddTo)
deriving DecidableEq, Repr

/-- Authentication config: an active flag plus the tagged variant. -/
structure HoppRESTAuth where
  authActive : Bool
  authType : AuthType
deriving DecidableEq, Repr

/-- An opaque binary blob (stand-in for the platform Blob object). -/
structure Blob where
  id : Nat
deriving DecidableEq, Repr

/-- The value of a multipart form entry: either a plain string (non-file
entries) or a list of blobs (file entries). -/
inductive FormDataValue where
  | text (s : String)
  | blobsVal (bs : List Blob)
deriving DecidableEq, Repr

/-- A multipart form entry. In the source the `isFile` discriminant ties
the value to `Blob[]` (file) or `string` (non-file). -/
structure FormDataKeyValue where
  active : Bool
  isFile : Bool
  key : String
  value : FormDataValue
deriving DecidableEq, Repr

/-- The tagged body variants: no body, a string body carrying its declared
content type (covers both the urlencoded and the raw cases, which the
source distinguishes by comparing the content-type string), or a multipart
body. -/
inductive HoppRESTReqBody where
  | noBody
  | strBody (contentType : String) (body : String)
  | multipartBody (body : List FormDataKeyValue)
deriving DecidableEq, Repr

/-- The declared content type of a body (`null` becomes `none`). -/
def HoppRESTReqBody.contentType : HoppRESTReqBody → Option String
  | .noBody => Option.none
  | .strBody ct _ => some ct
  | .multipartBody _ => some "multipart/form-data"

/-- The request data model: endpoint template, headers, params, local
variables (URL-only), auth config and body. -/
structure HoppRESTRequest where
  endpoint : String
  headers : List HoppRESTHeader
  params : List HoppRESTParam
  vars : List EnvVar
  auth : HoppRESTAuth
  body : HoppRESTReqBody
deriving DecidableEq, Repr

/-- One part of a materialized multipart container: a resolved string or a
blob. -/
inductive FormDataPart where
  | str (s : String)
  | blobPart (b : Blob)
deriving DecidableEq, Repr

/-- A materialized multipart container: an ordered list of key/part
entries. -/
structure FormData where
  entries : List (String × FormDataPart)
deriving DecidableEq, Repr

/-- Modelled from the spec: `buildMultipartContainer` — the external
wire-format builder assembling entries into a multipart container,
preserving order. -/
def toFormData (l : List (String × FormDataPart)) : FormData := ⟨l⟩

/-- The materialized final body: absent (`null`), a string, or a multipart
container. -/
inductive EffectiveBody where
  | nullBody
  | str (s : String)
  | form (f : FormData)
deriving DecidableEq, Repr

/-- First-match-wins lookup in an ordered list of variable bindings. -/
def lookupVar (vars : List EnvVar) (k : String) : Option String :=
  match vars with
  | [] => Option.none
  | v :: rest => if v.key == k then some v.value else lookupVar rest k

/-- Splits a character list at the first closing `\x7d\x7d`, returning the
characters before it and the remainder after it; `none` when no closing
pair occurs. -/
def splitAtCloseBraces : List Char → Option (List Char × List Char)
  | [] => Option.none
  | c :: cs =>
    if c = '\x7d' then
      match cs with
      | c2 :: cs2 =>
        if c2 = '\x7d' then some ([], cs2)
        else (splitAtCloseBraces cs).map (fun p => (c :: p.1, p.2))
      | [] => Option.none
    else (splitAtCloseBraces cs).map (fun p => (c :: p.1, p.2))

/-- Modelled from the spec: the substitution engine behind
`resolveTemplate` — scans for `\x7b\x7bname\x7d\x7d` placeholders and
substitutes the first matching binding; unbound placeholders are left as
literal text. Fuel-driven; one unit of fuel is spent per emitted literal
character or substituted placeholder, so `length + 1` fuel always
suffices. -/
def substTemplateAux (vars : List EnvVar) : Nat → List Char → List Char
  | 0, cs => cs
  | _ + 1, [] => []
  | fuel + 1, c :: cs =>
    if c = '\x7b' then
      match cs with
      | c2 :: cs2 =>
        if c2 = '\x7b' then
          match splitAtCloseBraces cs2 with
          | some (nameChars, rest) =>
            match lookupVar vars (String.mk nameChars) with
            | some v => v.data ++ substTemplateAux vars fuel rest
            | Option.none =>
              c :: c2 :: (nameChars ++ '\x7d' :: '\x7d' :: substTemplateAux vars fuel rest)
          | Option.none => c :: substTemplateAux vars fuel cs
        else c :: substTemplateAux vars fuel cs
      | [] => [c]
    else c :: substTemplateAux vars fuel cs

/-- Modelled from the spec: `resolveTemplate(text, scope, localVars?)` —
substitutes every bound placeholder, leaves unbound placeholders as
literal text; local request variables take precedence over the scope
(first matching key wins). -/
def parseTemplateString (text : String) (vars : List EnvVar)
    (reqVars : List EnvVar) : String :=
  String.mk (substTemplateAux (reqVars ++ vars) (text.length + 1) text.data)

/-- Checked-variant substitution engine: fails on the first unbound
placeholder instead of leaving it literal. -/
def substTemplateAuxE (vars : List EnvVar) :
    Nat → List Char → Except String (List Char)
  | 0, cs => .ok cs
  | _ + 1, [] => .ok []
  | fuel + 1, c :: cs =>
    if c = '\x7b' then
      match cs with
      | c2 :: cs2 =>
        if c2 = '\x7b' then
          match splitAtCloseBraces cs2 with
          | some (nameChars, rest) =>
            match lookupVar vars (String.mk nameChars) with
            | some v => (substTemplateAuxE vars fuel rest).map (fun t => v.data ++ t)
            | Option.none => .error (String.mk nameChars)
          | Option.none => (substTemplateAuxE vars fuel cs).map (fun t => c :: t)
        else (substTemplateAuxE vars fuel cs).map (fun t => c :: t)
      | [] => .ok [c]
    else (substTemplateAuxE vars fuel cs).map (fun t => c :: t)

/-- Modelled from the spec: `resolveTemplateChecked(text, scope)` — same
substitution, but reports failure (on an unbound placeholder) instead of
leaving literals; used for urlencoded entry filtering. -/
def parseTemplateStringE (text : String) (vars : List EnvVar) :
    Except String String :=
  (substTemplateAuxE vars (text.length + 1) text.data).map String.mk

/-- Modelled from the spec: the whole-string body resolver
(`parseBodyEnvVariables`), the delegated resolver for raw bodies. -/
def parseBodyEnvVariables (text : String) (vars : List EnvVar) : String :=
  parseTemplateString text vars []

/-- The base64 alphabet. -/
def b64Alphabet : List Char :=
  "ABCDEFGHIJKLMNOPQRSTUVWXYZabcdefghijklmnopqrstuvwxyz0123456789+/".data

/-- Index into the base64 alphabet. -/
def b64Char (n : Nat) : Char := b64Alphabet.getD n 'A'

/-- Base64-encodes a list of byte values, with `=` padding. -/
def b64EncodeBytes : List Nat → List Char
  | [] => []
  | [a] => [b64Char (a / 4), b64Char ((a % 4) * 16), '=', '=']
  | [a, b] =>
    [b64Char (a / 4), b64Char ((a % 4) * 16 + b / 16), b64Char ((b % 16) * 4), '=']
  | a :: b :: c :: rest =>
    b64Char (a / 4) :: b64Char ((a % 4) * 16 + b / 16) ::
      b64Char ((b % 16) * 4 + c / 64) :: b64Char (c % 64) :: b64EncodeBytes rest

/-- Modelled from the spec: the base64 encoding primitive (`btoa`),
operating on the code points of the string (the claims only use ASCII
input, where code points and bytes coincide). -/
def btoa (s : String) : String :=
  String.mk (b64EncodeBytes (s.data.map Char.toNat))

/-- A raw key-value entry as produced by the external raw-entry parser:
active flag, key and value. -/
structure RawKeyValueEntry where
  active : Bool
  key : String
  value : String
deriving DecidableEq, Repr

/-- Splits a character list at the first `=`; `none` when the list has no
`=` (a malformed entry). -/
def splitAtEqSign : List Char → Option (List Char × List Char)
  | [] => Option.none
  | c :: cs =>
    if c = '=' then some ([], cs)
    else (splitAtEqSign cs).map (fun p => (c :: p.1, p.2))

/-- Splits a character list into the pieces between separator
characters. -/
def splitChars (sep : Char → Bool) : List Char → List (List Char)
  | [] => [[]]
  | c :: cs =>
    let r := splitChars sep cs
    if sep c then [] :: r
    else
      match r with
      | [] => [[c]]
      | h :: t => (c :: h) :: t

/-- Parses one textual entry: a leading `#` marks the entry inactive, and
the rest must be `key=value`; `none` on malformed syntax. -/
def parseRawEntryChars (line : List Char) : Option RawKeyValueEntry :=
  match line with
  | '#' :: rest =>
    (splitAtEqSign rest).map (fun q => ⟨false, String.mk q.1, String.mk q.2⟩)
  | _ =>
    (splitAtEqSign line).map (fun q => ⟨true, String.mk q.1, String.mk q.2⟩)

/-- Modelled from the spec: `parseRawEntries(raw)` — parses the textual
newline/ampersand-delimited `key=value` body syntax into a sequence of
(active, key, value) entries, failing on malformed entries. -/
def parseRawKeyValueEntriesE (raw : String) :
    Except String (List RawKeyValueEntry) :=
  let pieces :=
    ((splitChars (fun c => c = '\n') raw.data).flatMap
        (splitChars (fun c => c = '&'))).filter (fun l => l ≠ [])
  pieces.mapM (fun l =>
    match parseRawEntryChars l with
    | some e => Except.ok e
    | Option.none => Except.error (String.mk l))

/-- Modelled from the spec: groups key/value tuples into a key to
value-list record, first-seen key order, values in source order
(`tupleWithSameKeysToRecord`). -/
def tupleWithSameKeysToRecord (l : List (String × String)) :
    List (String × List String) :=
  l.foldl
    (fun acc kv =>
      if acc.any (fun p => p.1 == kv.1) then
        acc.map (fun p => if p.1 == kv.1 then (p.1, p.2 ++ [kv.2]) else p)
      else acc ++ [(kv.1, [kv.2])])
    []

/-- Modelled from the spec: query-string serialization with array indices
suppressed (`qs.stringify` with `indices: false`): repeated `key=value`
pairs joined by `&`. Percent-encoding of reserved characters is not
modelled; no claim depends on it. -/
def qsStringify (r : List (String × List String)) : String :=
  String.intercalate "&" (r.flatMap (fun p => p.2.map (fun v => p.1 ++ "=" ++ v)))

/-- Inserts `x` into `l` before the first element `y` with `cmp x y < 0`;
the insertion step of a stable insertion sort. -/
def insertByCmp (cmp : α → α → Int) (x : α) : List α → List α
  | [] => [x]
  | y :: ys => if cmp x y < 0 then x :: y :: ys else y :: insertByCmp cmp x ys

/-- Modelled from the spec: `arraySort` — a stable comparator sort (ties
preserve relative order), implemented as a stable insertion sort. -/
def arraySort (cmp : α → α → Int) (l : List α) : List α :=
  l.foldl (fun acc x => insertByCmp cmp x acc) []

/-- `arrayFlatMap` from the functional helpers: flat-maps over a list. -/
def arrayFlatMap (f : α → List β) (l : List α) : List β :=
  l.flatMap f

/-- The comparator used to sort multipart entries (files sort down):
`(a, b) => a.isFile ? 1 : b.isFile ? -1 : 0`. -/
def multipartCmp (a b : FormDataKeyValue) : Int :=
  if a.isFile then 1 else if b.isFile then -1 else 0

/-- ASCII lower-casing (the `toLowerCase()` string primitive), written
character-wise so it evaluates by kernel reduction. -/
def toLowerCase (s : String) : String := String.mk (s.data.map Char.toLower)

/-- `getComputedAuthHeaders`: headers generated by the authorization
config of the request. A user-defined Authorization header (of any
activity) takes priority and suppresses them all. -/
def getComputedAuthHeaders (req : HoppRESTRequest) (envVars : List EnvVar) :
    List HoppRESTHeader :=
  if req.headers.any (fun h => toLowerCase h.key == "authorization") then []
  else if !req.auth.authActive then []
  else
    match req.auth.authType with
    | .noAuth => []
    | .basic username password =>
      [⟨true, "Authorization",
        "Basic " ++ btoa (parseTemplateString username envVars [] ++ ":" ++
          parseTemplateString password envVars [])⟩]
    | .bearer token =>
      [⟨true, "Authorization", "Bearer " ++ parseTemplateString token envVars []⟩]
    | .oauth2 token =>
      [⟨true, "Authorization", "Bearer " ++ parseTemplateString token envVars []⟩]
    | .apiKey key value addTo =>
      if addTo = .toHeaders then
        [⟨true, parseTemplateString key envVars [],
          parseTemplateString value envVars []⟩]
      else []

/-- `getComputedBodyHeaders`: headers generated by the body config; an
already-defined active content-type header overrides. -/
def getComputedBodyHeaders (req : HoppRESTRequest) : List HoppRESTHeader :=
  if req.headers.any (fun h => h.active && toLowerCase h.key == "content-type") then []
  else
    match req.body.contentType with
    | Option.none => []
    | some ct => [⟨true, "content-type", ct⟩]

/-- The source tag of a computed header. -/
inductive ComputedHeaderSource where
  | authSource
  | bodySource
deriving DecidableEq, Repr

/-- A computed header together with its source. -/
structure ComputedHeader where
  source : ComputedHeaderSource
  header : HoppRESTHeader
deriving DecidableEq, Repr

/-- `getComputedHeaders`: auth-derived headers followed by body-derived
headers, each tagged with its source. -/
def getComputedHeaders (req : HoppRESTRequest) (envVars : List EnvVar) :
    List ComputedHeader :=
  (getComputedAuthHeaders req envVars).map (fun h => ⟨.authSource, h⟩) ++
    (getComputedBodyHeaders req).map (fun h => ⟨.bodySource, h⟩)

/-- A computed param together with its (always auth) source. -/
structure ComputedParam where
  source : ComputedHeaderSource
  param : HoppRESTParam
deriving DecidableEq, Repr

/-- `getComputedParams`: the api-key-in-query-params auth variant yields
one computed param; every other configuration yields none. -/
def getComputedParams (req : HoppRESTRequest) (envVars : List EnvVar) :
    List ComputedParam :=
  if !req.auth.authActive then []
  else
    match req.auth.authType with
    | .apiKey key value addTo =>
      if addTo = .toQueryParams then
        [⟨.authSource,
          ⟨true, parseTemplateString key envVars [],
            parseTemplateString value envVars []⟩⟩]
      else []
    | _ => []

/-- The right-pair selector of the urlencoded path: keeps a key/value
pair only when both checked resolutions succeeded. -/
def keepRightPair (p : Except String String × Except String String) :
    Option (String × String) :=
  match p.1, p.2 with
  | .ok k, .ok v => some (k, v)
  | _, _ => Option.none

/-- The per-entry expansion step of the multipart path: a file entry
expands into one container entry per blob (all sharing the resolved key);
a non-file entry resolves both key and value. The cross branches are
unreachable under the source's union typing and yield nothing. -/
def multipartExpandEntry (envVariables : List EnvVar)
    (x : FormDataKeyValue) : List (String × FormDataPart) :=
  if x.isFile then
    match x.value with
    | .blobsVal bs =>
      bs.map (fun v =>
        (parseTemplateString x.key envVariables [], FormDataPart.blobPart v))
    | .text _ => []
  else
    match x.value with
    | .text s =>
      [(parseTemplateString x.key envVariables [],
        FormDataPart.str (parseTemplateString s envVariables []))]
    | .blobsVal _ => []

/-- `getFinalBodyFromRequest`: materializes the declared body, dispatching
on its content type. -/
def getFinalBodyFromRequest (request : HoppRESTRequest)
    (envVariables : List EnvVar) : EffectiveBody :=
  match request.body with
  | .noBody => .nullBody
  | .strBody ct bodyStr =>
    if ct = "application/x-www-form-urlencoded" then
      match parseRawKeyValueEntriesE bodyStr with
      | .error _ => .nullBody
      | .ok entries =>
        .str (qsStringify (tupleWithSameKeysToRecord
          (((entries.filter (fun e => e.active && e.key != "")).map
              (fun e => (parseTemplateStringE e.key envVariables,
                parseTemplateStringE e.value envVariables))).filterMap
            keepRightPair)))
    else .str (parseBodyEnvVariables bodyStr envVariables)
  | .multipartBody entries =>
    .form (toFormData (arrayFlatMap (multipartExpandEntry envVariables)
      (arraySort multipartCmp
        (entries.filter (fun x => x.key != "" && x.active)))))

/-- The effective request: the original request plus the derived final
URL, headers, params, body and (pass-through) variables. -/
structure EffectiveHoppRESTRequest extends HoppRESTRequest where
  effectiveFinalURL : String
  effectiveFinalHeaders : List HoppRESTHeader
  effectiveFinalParams : List HoppRESTParam
  effectiveFinalBody : EffectiveBody
  effectiveFinalVars : List EnvVar
deriving DecidableEq, Repr

/-- `getEffectiveRESTRequest`: the effective request assembler. The
process-wide global variable scope (`getGlobalVariables()`) is passed as
an explicit read-only snapshot `globalVars`. -/
def getEffectiveRESTRequest (request : HoppRESTRequest)
    (environment : Environment) (globalVars : List EnvVar) :
    EffectiveHoppRESTRequest :=
  let envVariables := environment.variables ++ globalVars
  let effectiveFinalHeaders :=
    ((((getComputedHeaders request envVariables).map (fun h => h.header)) ++
        request.headers).filter (fun x => x.active && x.key != "")).map
      (fun x =>
        (⟨true, parseTemplateString x.key envVariables [],
          parseTemplateString x.value envVariables []⟩ : HoppRESTHeader))
  let effectiveFinalParams :=
    ((((getComputedParams request envVariables).map (fun p => p.param)) ++
        request.params).filter (fun x => x.active && x.key != "")).map
      (fun x =>
        (⟨true, parseTemplateString x.key envVariables [],
          parseTemplateString x.value envVariables []⟩ : HoppRESTParam))
  let effectiveFinalVars := request.vars
  let effectiveFinalBody := getFinalBodyFromRequest request envVariables
  { request with
    effectiveFinalURL :=
      parseTemplateString request.endpoint envVariables request.vars
    effectiveFinalHeaders := effectiveFinalHeaders
    effectiveFinalParams := effectiveFinalParams
    effectiveFinalBody := effectiveFinalBody
    effectiveFinalVars := effectiveFinalVars }

/-! Concrete fixtures used by the example clauses, counterexamples and
witnesses below. -/

/-- A request whose only header has a template key that resolves to the
empty string. -/
def templKeyReq : HoppRESTRequest :=
  ⟨"", [⟨true, "\x7b\x7bx\x7d\x7d", "v"⟩], [], [], ⟨false, .noAuth⟩, .noBody⟩

/-- An environment binding `x` to the empty string. -/
def emptyBindEnv : Environment := ⟨[⟨"x", ""⟩]⟩

/-- A multipart request declaring a file entry before a non-file entry. -/
def multipartReq : HoppRESTRequest :=
  ⟨"", [], [], [],
    ⟨false, .noAuth⟩,
    .multipartBody
      [⟨true, true, "f", .blobsVal [⟨0⟩]⟩, ⟨true, false, "a", .text "va"⟩]⟩

/-- The multipart entries of `multipartReq`. -/
def multipartReqEntries : List FormDataKeyValue :=
  [⟨true, true, "f", .blobsVal [⟨0⟩]⟩, ⟨true, false, "a", .text "va"⟩]

/-- A request whose endpoint carries an `id` placeholder and whose local
variables bind `id` to `local`. -/
def precedenceReq : HoppRESTRequest :=
  ⟨"/item/\x7b\x7bid\x7d\x7d", [], [], [⟨"id", "local"⟩],
    ⟨false, .noAuth⟩, .noBody⟩

/-- An environment binding `id` to `env`. -/
def precedenceEnv : Environment := ⟨[⟨"id", "env"⟩]⟩

/-- A request declaring an active Authorization header together with an
active basic auth config. -/
def declaredAuthReq : HoppRESTRequest :=
  ⟨"", [⟨true, "Authorization", "Bearer xyz"⟩], [], [],
    ⟨true, .basic "u" "p"⟩, .noBody⟩

/-- A urlencoded request whose raw body is malformed (no `=`). -/
def malformedUrlencReq : HoppRESTRequest :=
  ⟨"", [], [], [], ⟨false, .noAuth⟩,
    .strBody "application/x-www-form-urlencoded" "nokey"⟩

/-- A urlencoded request with one resolvable entry and one entry whose
value resolution fails (unbound placeholder). -/
def mixedUrlencReq : HoppRESTRequest :=
  ⟨"", [], [], [], ⟨false, .noAuth⟩,
    .strBody "application/x-www-form-urlencoded"
      "a=\x7b\x7bv\x7d\x7d\nb=\x7b\x7bmissing\x7d\x7d"⟩

/-- The raw body text of `mixedUrlencReq`. -/
def mixedUrlencRaw : String := "a=\x7b\x7bv\x7d\x7d\nb=\x7b\x7bmissing\x7d\x7d"

/-- A request with active api-key auth added to the query params. -/
def apiKeyQueryReq : HoppRESTRequest :=
  ⟨"", [], [], [],
    ⟨true, .apiKey "X" "\x7b\x7btoken\x7d\x7d" .toQueryParams⟩, .noBody⟩

/-- An environment binding `token` to `abc`. -/
def tokenEnv : Environment := ⟨[⟨"token", "abc"⟩]⟩

/-- A request with active basic auth (`u`/`p`) and no declared headers. -/
def basicAuthReq : HoppRESTRequest :=
  ⟨"", [], [], [], ⟨true, .basic "u" "p"⟩, .noBody⟩

/-- A request with a JSON body and no declared headers. -/
def jsonBodyReq : HoppRESTRequest :=
  ⟨"", [], [], [], ⟨false, .noAuth⟩, .strBody "application/json" "x"⟩

/-- A request declaring an inactive Authorization header and an inactive
Content-Type header, with active bearer auth and a JSON body. -/
def inactiveGuardsReq : HoppRESTRequest :=
  ⟨"", [⟨false, "Authorization", "x"⟩, ⟨false, "Content-Type", "y"⟩], [], [],
    ⟨true, .bearer "t"⟩, .strBody "application/json" "b"⟩

/-! Helper lemmas shared by the claim theorems. -/

/-- Lookup in a concatenation of scopes scans the first scope first. -/
theorem lookupVar_append (a b : List EnvVar) (k : String) :
    lookupVar (a ++ b) k =
      (lookupVar a k).orElse (fun _ => lookupVar b k) := by
  induction a with
  | nil => rfl
  | cons v rest ih =>
    cases h : (v.key == k) with
    | true => simp [lookupVar, h, Option.orElse]
    | false => simp [lookupVar, h, ih, Option.orElse]

/-- Inserting a file entry with the multipart comparator appends it. -/
theorem insertByCmp_isFile (x : FormDataKeyValue) (hx : x.isFile = true) :
    ∀ l : List FormDataKeyValue, insertByCmp multipartCmp x l = l ++ [x] := by
  intro l
  induction l with
  | nil => rfl
  | cons y ys ih =>
    have hc : multipartCmp x y = 1 := by simp [multipartCmp, hx]
    simp [insertByCmp, hc, ih]

/-- Inserting a non-file entry into a list that is non-file entries
followed by file entries places it right between the two blocks. -/
theorem insertByCmp_nonFile (x : FormDataKeyValue) (hx : x.isFile = false) :
    ∀ A B : List FormDataKeyValue, (∀ a ∈ A, a.isFile = false) →
      (∀ b ∈ B, b.isFile = true) →
      insertByCmp multipartCmp x (A ++ B) = A ++ x :: B := by
  intro A
  induction A with
  | nil =>
    intro B _ hB
    cases B with
    | nil => rfl
    | cons b bs =>
      have hb : b.isFile = true := hB b (by simp)
      have hc : multipartCmp x b = -1 := by simp [multipartCmp, hx, hb]
      simp [insertByCmp, hc]
  | cons a as ih =>
    intro B hA hB
    have ha : a.isFile = false := hA a (by simp)
    have hc : multipartCmp x a = 0 := by simp [multipartCmp, hx, ha]
    simp [insertByCmp, hc,
      ih B (fun y hy => hA y (by simp [hy])) hB]

/-- Folding the stable insertion over a partitioned accumulator keeps the
partition: non-file entries extend the first block, file entries the
second, each in arrival order. -/
theorem multipartSort_aux :
    ∀ l A B : List FormDataKeyValue,
      (∀ a ∈ A, a.isFile = false) → (∀ b ∈ B, b.isFile = true) →
      List.foldl (fun acc x => insertByCmp multipartCmp x acc) (A ++ B) l =
        (A ++ l.filter (fun x => !x.isFile)) ++
          (B ++ l.filter (fun x => x.isFile)) := by
  intro l
  induction l with
  | nil => intro A B hA hB; simp
  | cons x xs ih =>
    intro A B hA hB
    cases hx : x.isFile with
    | true =>
      have h1 : insertByCmp multipartCmp x (A ++ B) = A ++ (B ++ [x]) := by
        rw [insertByCmp_isFile x hx, List.append_assoc]
      have hB2 : ∀ b ∈ B ++ [x], b.isFile = true := by
        intro b hb
        rcases List.mem_append.mp hb with h | h
        · exact hB b h
        · simp at h; rw [h]; exact hx
      simp only [List.foldl_cons, h1, ih A (B ++ [x]) hA hB2]
      simp [hx, List.append_assoc]
    | false =>
      have h1 : insertByCmp multipartCmp x (A ++ B) = (A ++ [x]) ++ B := by
        rw [insertByCmp_nonFile x hx A B hA hB, List.append_assoc,
          List.singleton_append]
      have hA2 : ∀ a ∈ A ++ [x], a.isFile = false := by
        intro a ha
        rcases List.mem_append.mp ha with h | h
        · exact hA a h
        · simp at h; rw [h]; exact hx
      simp only [List.foldl_cons, h1, ih (A ++ [x]) B hA2 hB]
      simp [hx, List.append_assoc]

/-- The multipart sort is the stable partition: non-file entries first, in
original order, then file entries, in original order. -/
theorem arraySort_multipart_partition (l : List FormDataKeyValue) :
    arraySort multipartCmp l =
      l.filter (fun x => !x.isFile) ++ l.filter (fun x => x.isFile) := by
  have h := multipartSort_aux l [] [] (by simp) (by simp)
  simpa [arraySort] using h

/-- The right-pair filterMap of the urlencoded path equals mapping the
resolved values over exactly the entries whose two resolutions succeed. -/
theorem filterMap_okPairs (env : List EnvVar) :
    ∀ l : List RawKeyValueEntry,
      ((l.map (fun e => (parseTemplateStringE e.key env,
          parseTemplateStringE e.value env))).filterMap keepRightPair) =
      (l.filter (fun e => (parseTemplateStringE e.key env).toOption.isSome &&
          (parseTemplateStringE e.value env).toOption.isSome)).map
        (fun e => ((parseTemplateStringE e.key env).toOption.getD "",
          (parseTemplateStringE e.value env).toOption.getD "")) := by
  intro l
  induction l with
  | nil => rfl
  | cons e es ih =>
    cases hk : parseTemplateStringE e.key env with
    | ok k =>
      cases hv : parseTemplateStringE e.value env with
      | ok v =>
        simp [List.filterMap_cons, List.filter_cons, hk, hv, Except.toOption, keepRightPair, ih]
      | error msg =>
        simp [List.filterMap_cons, List.filter_cons, hk, hv, Except.toOption, keepRightPair, ih]
    | error msg =>
      cases hv : parseTemplateStringE e.value env with
      | ok v =>
        simp [List.filterMap_cons, List.filter_cons, hk, hv, Except.toOption, keepRightPair, ih]
      | error msg2 =>
        simp [List.filterMap_cons, List.filter_cons, hk, hv, Except.toOption, keepRightPair, ih]

/-! Claim theorems. -/

/-- Claim C1, counterexample: with a header whose key is the template
`(two open braces)x(two close braces)` and an environment binding `x` to
the empty string, the effective final headers do contain an entry with an
empty key — the filter runs before template resolution, so the claim as
stated is false. -/
theorem effectiveHeaders_emptyKey_counterexample :
    (getEffectiveRESTRequest templKeyReq emptyBindEnv []).effectiveFinalHeaders =
      [⟨true, "", "v"⟩] ∧
    ((getEffectiveRESTRequest templKeyReq emptyBindEnv
        []).effectiveFinalHeaders.any (fun x => x.key == "")) = true := by
  constructor
  · decide
  · decide

/-- Claim C1, amended: every entry of the effective final header and param
lists is active, and the lists consist exactly of the template-resolved
images of those combined (computed-then-explicit) entries that are active
and have a non-empty pre-resolution key; a templated key may still resolve
to the empty string. -/
theorem effectiveLists_active_and_prefiltered (r : HoppRESTRequest)
    (e : Environment) (g : List EnvVar) :
    (∀ x ∈ (getEffectiveRESTRequest r e g).effectiveFinalHeaders,
      x.active = true) ∧
    (∀ x ∈ (getEffectiveRESTRequest r e g).effectiveFinalParams,
      x.active = true) ∧
    (∀ x, x ∈ (getEffectiveRESTRequest r e g).effectiveFinalHeaders ↔
      ∃ y ∈ ((getComputedHeaders r (e.variables ++ g)).map
          (fun h => h.header)) ++ r.headers,
        y.active = true ∧ y.key ≠ "" ∧
        x = ⟨true, parseTemplateString y.key (e.variables ++ g) [],
          parseTemplateString y.value (e.variables ++ g) []⟩) ∧
    (∀ x, x ∈ (getEffectiveRESTRequest r e g).effectiveFinalParams ↔
      ∃ y ∈ ((getComputedParams r (e.variables ++ g)).map
          (fun p => p.param)) ++ r.params,
        y.active = true ∧ y.key ≠ "" ∧
        x = ⟨true, parseTemplateString y.key (e.variables ++ g) [],
          parseTemplateString y.value (e.variables ++ g) []⟩) := by
  refine ⟨?_, ?_, ?_, ?_⟩
  · intro x hx
    simp only [getEffectiveRESTRequest, List.mem_map] at hx
    obtain ⟨y, hy, rfl⟩ := hx
    rfl
  · intro x hx
    simp only [getEffectiveRESTRequest, List.mem_map] at hx
    obtain ⟨y, hy, rfl⟩ := hx
    rfl
  · intro x
    constructor
    · intro hx
      simp only [getEffectiveRESTRequest, List.mem_map, List.mem_filter] at hx
      obtain ⟨y, ⟨hy, hcond⟩, rfl⟩ := hx
      rw [Bool.and_eq_true, bne_iff_ne] at hcond
      exact ⟨y, hy, hcond.1, hcond.2, rfl⟩
    · rintro ⟨y, hy, hact, hkey, rfl⟩
      simp only [getEffectiveRESTRequest, List.mem_map, List.mem_filter]
      exact ⟨y, ⟨hy, by rw [Bool.and_eq_true, bne_iff_ne]; exact ⟨hact, hkey⟩⟩, rfl⟩
  · intro x
    constructor
    · intro hx
      simp only [getEffectiveRESTRequest, List.mem_map, List.mem_filter] at hx
      obtain ⟨y, ⟨hy, hcond⟩, rfl⟩ := hx
      rw [Bool.and_eq_true, bne_iff_ne] at hcond
      exact ⟨y, hy, hcond.1, hcond.2, rfl⟩
    · rintro ⟨y, hy, hact, hkey, rfl⟩
      simp only [getEffectiveRESTRequest, List.mem_map, List.mem_filter]
      exact ⟨y, ⟨hy, by rw [Bool.and_eq_true, bne_iff_ne]; exact ⟨hact, hkey⟩⟩, rfl⟩

/-- Claim C1, amended, witness: the counterexample entry itself is active. -/
theorem effectiveLists_active_and_prefiltered_witness :
    (⟨true, "", "v"⟩ : HoppRESTHeader).active = true :=
  (effectiveLists_active_and_prefiltered templKeyReq emptyBindEnv []).1
    ⟨true, "", "v"⟩ (by decide)

/-- Claim C2: multipart materialization drops empty-key and inactive
entries and then orders the survivors as all non-file entries (in original
order) followed by all file entries (in original order); in particular for
`multipartReq` (file entry declared first) the container places the
non-file entry before the file entry. -/
theorem multipart_nonfiles_precede_files (r : HoppRESTRequest)
    (env : List EnvVar) (entries : List FormDataKeyValue)
    (h : r.body = .multipartBody entries) :
    (getFinalBodyFromRequest r env = .form (toFormData (arrayFlatMap
      (multipartExpandEntry env)
      (((entries.filter (fun x => x.key != "" && x.active)).filter
          (fun x => !x.isFile)) ++
        ((entries.filter (fun x => x.key != "" && x.active)).filter
          (fun x => x.isFile)))))) ∧
    getFinalBodyFromRequest multipartReq [] =
      .form ⟨[("a", FormDataPart.str "va"),
        ("f", FormDataPart.blobPart ⟨0⟩)]⟩ := by
  constructor
  · simp [getFinalBodyFromRequest, h, arraySort_multipart_partition]
  · decide

/-- Claim C2, witness: the theorem applied to `multipartReq` itself. -/
theorem multipart_nonfiles_precede_files_witness :
    getFinalBodyFromRequest multipartReq [] =
      .form ⟨[("a", FormDataPart.str "va"),
        ("f", FormDataPart.blobPart ⟨0⟩)]⟩ :=
  (multipart_nonfiles_precede_files multipartReq [] multipartReqEntries rfl).2

/-- Claim C3: the effective final URL is the endpoint template resolved
with the local request variables prepended to the merged
environment-then-global scope (first matching key wins, so locals take
precedence), while the headers, params and body never consult the local
variables; the concrete precedence example resolves to `/item/local`. -/
theorem url_resolves_with_local_precedence (r : HoppRESTRequest)
    (e : Environment) (g vs : List EnvVar) :
    ((getEffectiveRESTRequest r e g).effectiveFinalURL =
      parseTemplateString r.endpoint (e.variables ++ g) r.vars) ∧
    (∀ text, parseTemplateString text (e.variables ++ g) r.vars =
      parseTemplateString text (r.vars ++ (e.variables ++ g)) []) ∧
    (∀ k, lookupVar (r.vars ++ (e.variables ++ g)) k =
      (lookupVar r.vars k).orElse (fun _ =>
        (lookupVar e.variables k).orElse (fun _ => lookupVar g k))) ∧
    ((getEffectiveRESTRequest { r with vars := vs } e g).effectiveFinalHeaders =
      (getEffectiveRESTRequest r e g).effectiveFinalHeaders) ∧
    ((getEffectiveRESTRequest { r with vars := vs } e g).effectiveFinalParams =
      (getEffectiveRESTRequest r e g).effectiveFinalParams) ∧
    ((getEffectiveRESTRequest { r with vars := vs } e g).effectiveFinalBody =
      (getEffectiveRESTRequest r e g).effectiveFinalBody) ∧
    ((getEffectiveRESTRequest precedenceReq precedenceEnv
        []).effectiveFinalURL = "/item/local") := by
  refine ⟨rfl, ?_, ?_, rfl, rfl, rfl, by decide⟩
  · intro text
    simp [parseTemplateString]
  · intro k
    simp [lookupVar_append]

/-- Claim C9: the assembler is deterministic — two calls on identical
request, environment and global-variable snapshot yield identical
effective requests. -/
theorem assembler_deterministic (r1 r2 : HoppRESTRequest)
    (e1 e2 : Environment) (g1 g2 : List EnvVar)
    (hr : r1 = r2) (he : e1 = e2) (hg : g1 = g2) :
    getEffectiveRESTRequest r1 e1 g1 = getEffectiveRESTRequest r2 e2 g2 := by
  rw [hr, he, hg]

/-- Claim C9, witness: the theorem applied at a concrete input. -/
theorem assembler_deterministic_witness :
    getEffectiveRESTRequest precedenceReq precedenceEnv [] =
      getEffectiveRESTRequest precedenceReq precedenceEnv [] :=
  assembler_deterministic precedenceReq precedenceReq precedenceEnv
    precedenceEnv [] [] rfl rfl rfl

/-- Claim C4: a declared header whose key case-insensitively equals
`Authorization` suppresses all auth-derived header synthesis, regardless
of the authentication configuration. -/
theorem declared_auth_header_suppresses (r : HoppRESTRequest)
    (env : List EnvVar)
    (h : ∃ hd ∈ r.headers, toLowerCase hd.key = "authorization") :
    getComputedAuthHeaders r env = [] := by
  have hany : r.headers.any
      (fun hd => toLowerCase hd.key == "authorization") = true := by
    rw [List.any_eq_true]
    obtain ⟨hd, hm, hk⟩ := h
    exact ⟨hd, hm, by simp [hk]⟩
  simp [getComputedAuthHeaders, hany]

/-- Claim C4, witness: an active declared Authorization header together
with an active basic auth config synthesizes nothing. -/
theorem declared_auth_header_suppresses_witness :
    getComputedAuthHeaders declaredAuthReq [] = [] :=
  declared_auth_header_suppresses declaredAuthReq []
    ⟨⟨true, "Authorization", "Bearer xyz"⟩, by decide, by decide⟩

/-- Claim C5: for a urlencoded body, a raw parse failure materializes the
body as absent (not an error), and on parse success the serialized output
ranges over exactly the active non-empty-key entries whose key and value
resolutions both succeed — a failing entry is dropped alone. -/
theorem urlencoded_drops_failing_entries (r : HoppRESTRequest)
    (env : List EnvVar) (raw : String)
    (h : r.body = .strBody "application/x-www-form-urlencoded" raw) :
    (∀ msg, parseRawKeyValueEntriesE raw = .error msg →
      getFinalBodyFromRequest r env = .nullBody) ∧
    (∀ l, parseRawKeyValueEntriesE raw = .ok l →
      getFinalBodyFromRequest r env = .str (qsStringify
        (tupleWithSameKeysToRecord
          (((l.filter (fun e => e.active && e.key != "")).filter
              (fun e => (parseTemplateStringE e.key env).toOption.isSome &&
                (parseTemplateStringE e.value env).toOption.isSome)).map
            (fun e => ((parseTemplateStringE e.key env).toOption.getD "",
              (parseTemplateStringE e.value env).toOption.getD "")))))) := by
  constructor
  · intro msg hmsg
    simp [getFinalBodyFromRequest, h, hmsg]
  · intro l hl
    simp only [getFinalBodyFromRequest, h, hl, eq_self_iff_true, if_true]
    rw [filterMap_okPairs]

/-- Claim C5, witness: the malformed raw body materializes as absent, and
the mixed body keeps the resolvable entry and drops the failing one. -/
theorem urlencoded_drops_failing_entries_witness :
    getFinalBodyFromRequest malformedUrlencReq [⟨"v", "1"⟩] = .nullBody ∧
    getFinalBodyFromRequest mixedUrlencReq [⟨"v", "1"⟩] = .str "a=1" := by
  constructor
  · exact (urlencoded_drops_failing_entries malformedUrlencReq [⟨"v", "1"⟩]
      "nokey" rfl).1 "nokey" rfl
  · exact ((urlencoded_drops_failing_entries mixedUrlencReq [⟨"v", "1"⟩]
      mixedUrlencRaw rfl).2
      [⟨true, "a", "\x7b\x7bv\x7d\x7d"⟩, ⟨true, "b", "\x7b\x7bmissing\x7d\x7d"⟩]
      rfl).trans (by decide)

/-- Claim C6: the computed-parameter deriver yields exactly one resolved
key/value parameter when auth is active, of api-key type and added to the
query params, and nothing in every other case; with key `X`, value the
`token` placeholder and binding `token=abc`, the assembled params are
exactly `X=abc` and no computed header is produced. -/
theorem computed_params_apikey_query_only :
    (∀ (r : HoppRESTRequest) (env : List EnvVar) (k v : String),
      r.auth = ⟨true, .apiKey k v .toQueryParams⟩ →
      getComputedParams r env =
        [⟨.authSource, ⟨true, parseTemplateString k env [],
          parseTemplateString v env []⟩⟩]) ∧
    (∀ (r : HoppRESTRequest) (env : List EnvVar),
      (∀ k v, r.auth ≠ ⟨true, .apiKey k v .toQueryParams⟩) →
      getComputedParams r env = []) ∧
    ((getEffectiveRESTRequest apiKeyQueryReq tokenEnv []).effectiveFinalParams =
      [⟨true, "X", "abc"⟩]) ∧
    (getComputedHeaders apiKeyQueryReq tokenEnv.variables = []) := by
  refine ⟨?_, ?_, by decide, by decide⟩
  · intro r env k v hauth
    simp [getComputedParams, hauth]
  · intro r env hne
    rcases hauth : r.auth with ⟨act, ty⟩
    cases act with
    | false => simp [getComputedParams, hauth]
    | true =>
      cases ty with
      | noAuth => simp [getComputedParams, hauth]
      | basic u p => simp [getComputedParams, hauth]
      | bearer t => simp [getComputedParams, hauth]
      | oauth2 t => simp [getComputedParams, hauth]
      | apiKey k v addTo =>
        cases addTo with
        | toHeaders => simp [getComputedParams, hauth]
        | toQueryParams => exact absurd hauth (hne k v)

/-- Claim C6, witness: the theorem applied at the api-key request and at a
basic-auth request. -/
theorem computed_params_apikey_query_only_witness :
    getComputedParams apiKeyQueryReq tokenEnv.variables =
      [⟨.authSource, ⟨true, "X", "abc"⟩⟩] ∧
    getComputedParams basicAuthReq [] = [] := by
  constructor
  · exact (computed_params_apikey_query_only.1 apiKeyQueryReq tokenEnv.variables
      "X" "\x7b\x7btoken\x7d\x7d" rfl).trans (by decide)
  · exact computed_params_apikey_query_only.2.1 basicAuthReq []
      (fun k v h => by simp [basicAuthReq] at h)

/-- Claim C7: with active basic auth and no declared Authorization header
(case-insensitively), exactly one header is synthesized, keyed
`Authorization`, valued `Basic` plus the base64 of the resolved username,
a colon and the resolved password; and base64 of `u:p` is `dTpw`. -/
theorem basic_auth_header_value (r : HoppRESTRequest) (env : List EnvVar)
    (u p : String) (hauth : r.auth = ⟨true, .basic u p⟩)
    (hno : ∀ hd ∈ r.headers, toLowerCase hd.key ≠ "authorization") :
    getComputedAuthHeaders r env =
      [⟨true, "Authorization",
        "Basic " ++ btoa (parseTemplateString u env [] ++ ":" ++
          parseTemplateString p env [])⟩] ∧
    btoa "u:p" = "dTpw" := by
  constructor
  · have hany : r.headers.any
        (fun hd => toLowerCase hd.key == "authorization") = false := by
      rw [List.any_eq_false]
      intro hd hm
      simpa using hno hd hm
    simp [getComputedAuthHeaders, hany, hauth]
  · decide

/-- Claim C7, witness: username `u`, password `p`, empty scope gives
exactly the `Basic dTpw` header. -/
theorem basic_auth_header_value_witness :
    getComputedAuthHeaders basicAuthReq [] =
      [⟨true, "Authorization", "Basic dTpw"⟩] :=
  ((basic_auth_header_value basicAuthReq [] "u" "p" rfl
    (by intro hd hm; simp [basicAuthReq] at hm)).1).trans (by decide)

/-- Claim C8: the body-derived content-type header is synthesized exactly
when no active declared header is case-insensitively keyed `content-type`
and the body declares a content type, and the synthesized value is that
declared content type copied verbatim (the deriver consults no variable
scope at all). -/
theorem body_contentType_header_iff (r : HoppRESTRequest) :
    ((getComputedBodyHeaders r ≠ []) ↔
      ((¬ ∃ hd ∈ r.headers, hd.active = true ∧
          toLowerCase hd.key = "content-type") ∧
        r.body.contentType ≠ Option.none)) ∧
    (∀ ct, r.body.contentType = some ct →
      (¬ ∃ hd ∈ r.headers, hd.active = true ∧
        toLowerCase hd.key = "content-type") →
      getComputedBodyHeaders r = [⟨true, "content-type", ct⟩]) := by
  have hiff : (r.headers.any
      (fun hd => hd.active && toLowerCase hd.key == "content-type") = true) ↔
      (∃ hd ∈ r.headers, hd.active = true ∧
        toLowerCase hd.key = "content-type") := by
    simp [List.any_eq_true]
  constructor
  · cases hb : r.headers.any
        (fun hd => hd.active && toLowerCase hd.key == "content-type") with
    | true =>
      have hexists := hiff.mp hb
      simp [getComputedBodyHeaders, hb, hexists]
    | false =>
      have hnex : ¬ ∃ hd ∈ r.headers, hd.active = true ∧
          toLowerCase hd.key = "content-type" := by
        rw [← hiff, hb]
        simp
      cases hct : r.body.contentType with
      | none => simp [getComputedBodyHeaders, hb, hct, hnex]
      | some ct => simp [getComputedBodyHeaders, hb, hct, hnex]
  · intro ct hct hnex
    have hb : r.headers.any
        (fun hd => hd.active && toLowerCase hd.key == "content-type") = false := by
      cases hb2 : r.headers.any
          (fun hd => hd.active && toLowerCase hd.key == "content-type") with
      | true => exact absurd (hiff.mp hb2) hnex
      | false => rfl
    simp [getComputedBodyHeaders, hb, hct]

/-- Claim C8, witness: a JSON body with no declared headers synthesizes
the verbatim content-type header. -/
theorem body_contentType_header_iff_witness :
    getComputedBodyHeaders jsonBodyReq =
      [⟨true, "content-type", "application/json"⟩] :=
  (body_contentType_header_iff jsonBodyReq).2 "application/json" rfl
    (by simp [jsonBodyReq])

/-- Claim C10: the two computed-header guards treat the active flag
differently — an inactive declared Authorization-keyed header still
suppresses all auth-derived headers, while inactive content-type-keyed
headers do not prevent the body-derived content-type header. -/
theorem guard_activity_asymmetry (r : HoppRESTRequest) (env : List EnvVar) :
    ((∃ hd ∈ r.headers, hd.active = false ∧
        toLowerCase hd.key = "authorization") →
      getComputedAuthHeaders r env = []) ∧
    (∀ ct, r.body.contentType = some ct →
      (∀ hd ∈ r.headers, toLowerCase hd.key = "content-type" →
        hd.active = false) →
      getComputedBodyHeaders r = [⟨true, "content-type", ct⟩]) := by
  constructor
  · rintro ⟨hd, hm, hinact, hk⟩
    have hany : r.headers.any
        (fun x => toLowerCase x.key == "authorization") = true := by
      rw [List.any_eq_true]
      exact ⟨hd, hm, by simp [hk]⟩
    simp [getComputedAuthHeaders, hany]
  · intro ct hct hinact
    have hb : r.headers.any
        (fun x => x.active && toLowerCase x.key == "content-type") = false := by
      rw [List.any_eq_false]
      intro x hx hcontra
      rw [Bool.and_eq_true, beq_iff_eq] at hcontra
      have hfalse := hinact x hx hcontra.2
      rw [hfalse] at hcontra
      exact Bool.false_ne_true hcontra.1
    simp [getComputedBodyHeaders, hb, hct]

/-- Claim C10, witness: a request with an inactive Authorization header,
an inactive Content-Type header, active bearer auth and a JSON body gets
no auth header but does get the body content-type header. -/
theorem guard_activity_asymmetry_witness :
    getComputedAuthHeaders inactiveGuardsReq [] = [] ∧
    getComputedBodyHeaders inactiveGuardsReq =
      [⟨true, "content-type", "application/json"⟩] := by
  constructor
  · exact (guard_activity_asymmetry inactiveGuardsReq []).1
      ⟨⟨false, "Authorization", "x"⟩, by decide, by decide, by decide⟩
  · exact (guard_activity_asymmetry inactiveGuardsReq []).2 "application/json"
      rfl (by decide)
